import Mathlib

/-!
Verification of the voxel adjacency graph and boundary extraction program
(`random_cube.py`): a rectilinear grid of axis-aligned rectangular prisms
supporting point deletion and triangle-mesh extraction.

The embedding models the numeric type as `ℚ` (exact arithmetic), Python
lists as `List`, the per-node neighbour dictionary as an association list
`List (Orientation × Prism)` (Python dicts preserve insertion order), and
`None`-able fields as `Option`.  Deletion, which in Python raises an
`IndexError` on an out-of-range index, returns `Option` (`none` on the
error path).  The membership test `r.orientation not in suppress_orientations`
in Python compares values of different runtime classes (an `Orientation`
against the `Prism` values of the dict), which is always unequal; this is
modelled by the sum type `PyObj` whose cross-constructor equality is false.
-/

namespace RandomCube

/-- A 3D point, components `(x, y, z)`. -/
abbrev Vec3 : Type := ℚ × ℚ × ℚ

/-- The six axis directions of `class Orientation(Enum)`. -/
inductive Orientation : Type
  | DOWN
  | UP
  | LEFT
  | RIGHT
  | INTO
  | OUT_OF
deriving DecidableEq, Repr

/-- Python's `for o in Orientation` iterates in declaration order. -/
def Orientation.all : List Orientation :=
  [.DOWN, .UP, .LEFT, .RIGHT, .INTO, .OUT_OF]

/-- `Orientation.reverse`: the unique opposite direction. -/
def Orientation.reverse : Orientation → Orientation
  | .DOWN => .UP
  | .UP => .DOWN
  | .LEFT => .RIGHT
  | .RIGHT => .LEFT
  | .INTO => .OUT_OF
  | .OUT_OF => .INTO

/-- Triple indexing `grid[x][y][z]` into a nested list, `none` when any
index is out of range. -/
def idx3 {α : Type} (grid : List (List (List α))) (x y z : ℕ) : Option α :=
  (grid[x]?.bind fun gx => gx[y]?).bind fun gxy => gxy[z]?

/-- `Orientation.get_neighbour(self, grid, x, y, z)`: the grid entry one
step along the direction, or `None` at the grid boundary.  The Python
boundary tests are `y != len(grid[x])-1`, `y != 0`, `x != 0`,
`x != len(grid)-1`, `z != len(grid[x][y])-1`, `z != 0`. -/
def Orientation.get_neighbour {α : Type} (o : Orientation)
    (grid : List (List (List α))) (x y z : ℕ) : Option α :=
  match o with
  | .UP => if y + 1 = (grid.getD x []).length then none else idx3 grid x (y + 1) z
  | .DOWN => if y = 0 then none else idx3 grid x (y - 1) z
  | .LEFT => if x = 0 then none else idx3 grid (x - 1) y z
  | .RIGHT => if x + 1 = grid.length then none else idx3 grid (x + 1) y z
  | .INTO => if z + 1 = ((grid.getD x []).getD y []).length then none else idx3 grid x y (z + 1)
  | .OUT_OF => if z = 0 then none else idx3 grid x y (z - 1)

/-- The index one step along a direction (the index `get_neighbour` reads
when it does not return `None`). -/
def Orientation.nbr_index (o : Orientation) (x y z : ℕ) : ℕ × ℕ × ℕ :=
  match o with
  | .UP => (x, y + 1, z)
  | .DOWN => (x, y - 1, z)
  | .LEFT => (x - 1, y, z)
  | .RIGHT => (x + 1, y, z)
  | .INTO => (x, y, z + 1)
  | .OUT_OF => (x, y, z - 1)

/-- A triangle: three vertices in emission order. -/
abbrev Triangle : Type := Vec3 × Vec3 × Vec3

/-- `class Rectangle`: one face of a prism with its four corners
(low-low, top-left, low-right, top-right over the two varying axes) and
the direction it faces. -/
structure Rectangle : Type where
  ll : Vec3
  tl : Vec3
  lr : Vec3
  tr : Vec3
  orientation : Orientation
deriving DecidableEq, Repr

/-- `Rectangle.faces`: the two triangles of a face.  For orientations
`UP`, `RIGHT`, `OUT_OF` the counterclockwise corner order
`(ll, tr, tl), (ll, lr, tr)`; otherwise the mirrored clockwise order
`(ll, tl, tr), (ll, tr, lr)`. -/
def Rectangle.faces (r : Rectangle) : List Triangle :=
  if r.orientation = .UP ∨ r.orientation = .RIGHT ∨ r.orientation = .OUT_OF then
    [(r.ll, r.tr, r.tl), (r.ll, r.lr, r.tr)]
  else
    [(r.ll, r.tl, r.tr), (r.ll, r.tr, r.lr)]

/-- `class Prism`: corner `vx_abc` has the high `x` coordinate when
`a = 1`, the high `y` coordinate when `b = 1`, the high `z` coordinate
when `c = 1`. -/
structure Prism : Type where
  vx_000 : Vec3
  vx_001 : Vec3
  vx_010 : Vec3
  vx_011 : Vec3
  vx_100 : Vec3
  vx_101 : Vec3
  vx_110 : Vec3
  vx_111 : Vec3
deriving DecidableEq, Repr

/-- `Prism.volume`: product of the three axis extents read off opposite
corners. -/
def Prism.volume (p : Prism) : ℚ :=
  (p.vx_100.1 - p.vx_000.1) * (p.vx_010.2.1 - p.vx_000.2.1) * (p.vx_001.2.2 - p.vx_000.2.2)

/-- The six face rectangles of a prism, in source order
`LEFT, RIGHT, UP, DOWN, INTO, OUT_OF`, with the corner assignments of
`Prism.triangle_slice`. -/
def Prism.rectangles (p : Prism) : List Rectangle :=
  [⟨p.vx_000, p.vx_001, p.vx_010, p.vx_011, .LEFT⟩,
   ⟨p.vx_100, p.vx_101, p.vx_110, p.vx_111, .RIGHT⟩,
   ⟨p.vx_001, p.vx_011, p.vx_101, p.vx_111, .UP⟩,
   ⟨p.vx_000, p.vx_010, p.vx_100, p.vx_110, .DOWN⟩,
   ⟨p.vx_010, p.vx_011, p.vx_110, p.vx_111, .INTO⟩,
   ⟨p.vx_000, p.vx_001, p.vx_100, p.vx_101, .OUT_OF⟩]

/-- A Python runtime value that may appear in the suppression collection:
Python's `in` compares with `==`, and an `Orientation` never equals a
`Prism` (cross-class comparison is `False`). -/
inductive PyObj : Type
  | ori (o : Orientation)
  | pr (p : Prism)
deriving DecidableEq

/-- `Prism.triangle_slice(suppress_orientations)`: the triangles of every
face whose orientation is not a member of the suppression collection. -/
def Prism.triangle_slice (p : Prism) (suppress_orientations : List PyObj) : List Triangle :=
  (p.rectangles.filter
    (fun r => !(suppress_orientations.contains (PyObj.ori r.orientation)))).flatMap
    Rectangle.faces

/-- `class PrismGraphNode`: an optional prism (set to `none` on deletion)
and the neighbour dictionary mapping directions to the neighbouring
prism. -/
structure PrismGraphNode : Type where
  prism : Option Prism
  neighbour_map : List (Orientation × Prism)
deriving DecidableEq, Repr

/-- `class PrismGraph`: the 3D node array. -/
structure PrismGraph : Type where
  graph : List (List (List PrismGraphNode))
deriving DecidableEq, Repr

/-- `zip(seq, seq[1:])`: consecutive pairs of a breakpoint sequence. -/
def pairs (l : List ℚ) : List (ℚ × ℚ) := l.zip l.tail

/-- The prism built from one breakpoint pair per axis, with the corner
layout of `PrismGraph.__init__`. -/
def mkPrism (x x_next y y_next z z_next : ℚ) : Prism :=
  ⟨(x, y, z), (x, y, z_next), (x, y_next, z), (x, y_next, z_next),
   (x_next, y, z), (x_next, y, z_next), (x_next, y_next, z), (x_next, y_next, z_next)⟩

/-- The local `prism_grid` of `PrismGraph.__init__`: one `Prism` per
consecutive breakpoint pair on each axis. -/
def prism_grid (x_grid y_grid z_grid : List ℚ) : List (List (List Prism)) :=
  (pairs x_grid).map fun xp =>
    (pairs y_grid).map fun yp =>
      (pairs z_grid).map fun zp =>
        mkPrism xp.1 xp.2 yp.1 yp.2 zp.1 zp.2

/-- `PrismGraph.__init__(x_grid, y_grid, z_grid)`: build the prism grid
from consecutive breakpoint pairs, then one node per prism whose
neighbour map holds, for each direction in iteration order, the
neighbouring prism when `get_neighbour` finds one. -/
def PrismGraph.init (x_grid y_grid z_grid : List ℚ) : PrismGraph :=
  let pg := prism_grid x_grid y_grid z_grid
  ⟨(List.range pg.length).map fun x =>
    (List.range (pg.getD x []).length).map fun y =>
      (List.range ((pg.getD x []).getD y []).length).map fun z =>
        { prism := idx3 pg x y z
          neighbour_map := Orientation.all.filterMap fun o =>
            (o.get_neighbour pg x y z).map fun p => (o, p) }⟩

/-- `dict.pop(key, None)` on an association list with unique keys:
remove the entry with the given key. -/
def popKey (m : List (Orientation × Prism)) (o : Orientation) : List (Orientation × Prism) :=
  m.filter fun e => decide (e.1 ≠ o)

/-- Writing `grid[x][y][z] = a` into a nested list (no-op out of range;
deletion only performs it in range). -/
def set3 {α : Type} (grid : List (List (List α))) (x y z : ℕ) (a : α) :
    List (List (List α)) :=
  grid.set x ((grid.getD x []).set y (((grid.getD x []).getD y []).set z a))

/-- One iteration of the unlink loop of `delete_prism`: look up the
neighbour along `o` in the current graph and, when one exists, pop the
key `o.reverse()` from its neighbour map. -/
def popStep (x y z : ℕ) (gr : List (List (List PrismGraphNode))) (o : Orientation) :
    List (List (List PrismGraphNode)) :=
  match o.get_neighbour gr x y z with
  | none => gr
  | some nb =>
    set3 gr (o.nbr_index x y z).1 (o.nbr_index x y z).2.1 (o.nbr_index x y z).2.2
      { nb with neighbour_map := popKey nb.neighbour_map o.reverse }

/-- `PrismGraph.delete_prism(x, y, z)`: `none` models the `IndexError`
raised on an out-of-range index.  On an absent prism, return `0` leaving
the graph unchanged.  Otherwise cache the volume, clear the prism, run
the unlink loop over all six directions, and return the volume with the
new graph. -/
def PrismGraph.delete_prism (g : PrismGraph) (x y z : ℕ) : Option (ℚ × PrismGraph) :=
  match idx3 g.graph x y z with
  | none => none
  | some node =>
    match node.prism with
    | none => some (0, g)
    | some p =>
      let g1 := set3 g.graph x y z { node with prism := none }
      some (p.volume, ⟨Orientation.all.foldl (popStep x y z) g1⟩)

/-- Run a sequence of deletions, accumulating the returned volumes;
`none` as soon as one raises. -/
def runDeletes (g : PrismGraph) : List (ℕ × ℕ × ℕ) → Option (ℚ × PrismGraph)
  | [] => some (0, g)
  | d :: ds =>
    (g.delete_prism d.1 d.2.1 d.2.2).bind fun r =>
      (runDeletes r.2 ds).map fun s => (r.1 + s.1, s.2)

/-- `PrismGraph.to_mesh`: for every node in x-outer, y-middle, z-inner
order, if its prism is present, emit `triangle_slice` with the
suppression collection `node.neighbour_map.values()` — a collection of
`Prism` values. -/
def PrismGraph.to_mesh (g : PrismGraph) : List Triangle :=
  g.graph.flatMap fun n_x =>
    n_x.flatMap fun n_y =>
      n_y.flatMap fun node =>
        match node.prism with
        | none => []
        | some p => p.triangle_slice (node.neighbour_map.map fun e => PyObj.pr e.2)

/-- The volume a node contributes: its prism's volume, or `0` when absent. -/
def nodeVol (n : PrismGraphNode) : ℚ := (n.prism.map Prism.volume).getD 0

/-- Sum of the volumes of the prisms still present. -/
def PrismGraph.totalVolume (g : PrismGraph) : ℚ :=
  (g.graph.map fun a => (a.map fun b => (b.map nodeVol).sum).sum).sum

/-- Number of nodes whose prism is present. -/
def PrismGraph.numPresent (g : PrismGraph) : ℕ :=
  (g.graph.map fun a => (a.map fun b => b.countP fun n => n.prism.isSome).sum).sum

/-- A nested list is a rectangular `nx × ny × nz` grid. -/
def IsRect {α : Type} (g : List (List (List α))) (nx ny nz : ℕ) : Prop :=
  g.length = nx ∧ ∀ a ∈ g, a.length = ny ∧ ∀ b ∈ a, b.length = nz

/-- Pointwise geometric-neighbour existence, read off the boundary tests
of `get_neighbour` on an `nx × ny × nz` grid. -/
def activeB (o : Orientation) (nx ny nz x y z : ℕ) : Bool :=
  match o with
  | .UP => y + 1 != ny
  | .DOWN => y != 0
  | .LEFT => x != 0
  | .RIGHT => x + 1 != nx
  | .INTO => z + 1 != nz
  | .OUT_OF => z != 0

/-- The neighbour map a node receives at construction. -/
def initMap (xs ys zs : List ℚ) (x y z : ℕ) : List (Orientation × Prism) :=
  Orientation.all.filterMap fun o =>
    (o.get_neighbour (prism_grid xs ys zs) x y z).map fun p => (o, p)

/-- The accumulated effect of the unlink loop on the neighbour map of the
node at `(i, j, k)`: for every direction `o` of `L` whose neighbour step
from `(x, y, z)` lands on `(i, j, k)` inside the grid, pop `o.reverse()`. -/
def popsFor (nx ny nz x y z : ℕ) (L : List Orientation) (i j k : ℕ)
    (m : List (Orientation × Prism)) : List (Orientation × Prism) :=
  L.foldl (fun m o =>
    if activeB o nx ny nz x y z = true ∧ o.nbr_index x y z = (i, j, k)
    then popKey m o.reverse else m) m

/-- The entry direction `o` would contribute to the neighbour map of the
node at `(x, y, z)`: present exactly when the geometric neighbour exists
and its prism is present. -/
def nbEntry (g : PrismGraph) (x y z : ℕ) (o : Orientation) : Option (Orientation × Prism) :=
  (o.get_neighbour g.graph x y z).bind fun nb => nb.prism.map fun p => (o, p)

/-- The neighbour map the invariant predicts at `(x, y, z)`. -/
def predictedMap (g : PrismGraph) (x y z : ℕ) : List (Orientation × Prism) :=
  Orientation.all.filterMap (nbEntry g x y z)

/-- The link invariant: maintained by construction and by every deletion. -/
def Inv (g : PrismGraph) : Prop :=
  ∀ x y z node, idx3 g.graph x y z = some node → node.neighbour_map = predictedMap g x y z

/-- A graph state reachable by constructing and then running any sequence
of (in-range) deletions. -/
def Reachable (g : PrismGraph) : Prop :=
  ∃ xs ys zs : List ℚ, ∃ ds : List (ℕ × ℕ × ℕ), ∃ s : ℚ,
    runDeletes (PrismGraph.init xs ys zs) ds = some (s, g)

/-- Componentwise difference of 3D points. -/
def vsub (a b : Vec3) : Vec3 := (a.1 - b.1, a.2.1 - b.2.1, a.2.2 - b.2.2)

/-- Cross product. -/
def cross (a b : Vec3) : Vec3 :=
  (a.2.1 * b.2.2 - a.2.2 * b.2.1, a.2.2 * b.1 - a.1 * b.2.2, a.1 * b.2.1 - a.2.1 * b.1)

/-- Dot product. -/
def dot (a b : Vec3) : ℚ := a.1 * b.1 + a.2.1 * b.2.1 + a.2.2 * b.2.2

/-- The normal of a triangle obtained from the cross product of its edges
taken in listed vertex order. -/
def triNormal (t : Triangle) : Vec3 := cross (vsub t.2.1 t.1) (vsub t.2.2 t.1)

/-- The centroid of a prism: the average of its 8 corners. -/
def Prism.centroid (p : Prism) : Vec3 :=
  ((p.vx_000.1 + p.vx_001.1 + p.vx_010.1 + p.vx_011.1
    + p.vx_100.1 + p.vx_101.1 + p.vx_110.1 + p.vx_111.1) / 8,
   (p.vx_000.2.1 + p.vx_001.2.1 + p.vx_010.2.1 + p.vx_011.2.1
    + p.vx_100.2.1 + p.vx_101.2.1 + p.vx_110.2.1 + p.vx_111.2.1) / 8,
   (p.vx_000.2.2 + p.vx_001.2.2 + p.vx_010.2.2 + p.vx_011.2.2
    + p.vx_100.2.2 + p.vx_101.2.2 + p.vx_110.2.2 + p.vx_111.2.2) / 8)

/-- A valid (non-degenerate axis-aligned) prism: corners taken from three
coordinate pairs, each strictly increasing. -/
def Prism.IsBox (p : Prism) : Prop :=
  ∃ x0 x1 y0 y1 z0 z1 : ℚ, x0 < x1 ∧ y0 < y1 ∧ z0 < z1 ∧ p = mkPrism x0 x1 y0 y1 z0 z1

/-- A valid axis input: at least two breakpoints, strictly increasing. -/
def ValidAxis (l : List ℚ) : Prop := 2 ≤ l.length ∧ l.Chain' (· < ·)

/-- Run one deletion and keep the resulting graph (the graph itself when
the call raises). -/
def delD (g : PrismGraph) (x y z : ℕ) : PrismGraph :=
  ((g.delete_prism x y z).map Prod.snd).getD g

end RandomCube

namespace RandomCube

/-! ### Grid shape and indexing lemmas -/

theorem getD_of_getElem? {α : Type} {l : List α} {i : ℕ} {a d : α}
    (h : l[i]? = some a) : l.getD i d = a := by
  rw [List.getD_eq_getElem?_getD, h]; rfl

theorem idx3_eq_some_iff {α : Type} {g : List (List (List α))} {x y z : ℕ} {a : α} :
    idx3 g x y z = some a ↔
      ∃ gx gxy, g[x]? = some gx ∧ gx[y]? = some gxy ∧ gxy[z]? = some a := by
  simp only [idx3, Option.bind_eq_some]
  constructor
  · rintro ⟨gxy, ⟨gx, h1, h2⟩, h3⟩
    exact ⟨gx, gxy, h1, h2, h3⟩
  · rintro ⟨gx, gxy, h1, h2, h3⟩
    exact ⟨gxy, ⟨gx, h1, h2⟩, h3⟩

theorem rect_getElem? {α : Type} {g : List (List (List α))} {nx ny nz x : ℕ}
    (hr : IsRect g nx ny nz) (hx : x < nx) :
    ∃ gx, g[x]? = some gx ∧ gx.length = ny ∧ ∀ b ∈ gx, b.length = nz := by
  obtain ⟨hlen, hall⟩ := hr
  have hx' : x < g.length := by omega
  exact ⟨g[x], List.getElem?_eq_getElem hx', hall _ (List.getElem_mem hx')⟩

theorem rect_getD1 {α : Type} {g : List (List (List α))} {nx ny nz x : ℕ}
    (hr : IsRect g nx ny nz) (hx : x < nx) : (g.getD x []).length = ny := by
  obtain ⟨gx, h1, h2, _⟩ := rect_getElem? hr hx
  rw [getD_of_getElem? h1]; exact h2

theorem rect_getD2 {α : Type} {g : List (List (List α))} {nx ny nz x y : ℕ}
    (hr : IsRect g nx ny nz) (hx : x < nx) (hy : y < ny) :
    ((g.getD x []).getD y []).length = nz := by
  obtain ⟨gx, h1, h2, h3⟩ := rect_getElem? hr hx
  rw [getD_of_getElem? h1]
  have hy' : y < gx.length := by omega
  rw [getD_of_getElem? (List.getElem?_eq_getElem hy')]
  exact h3 _ (List.getElem_mem hy')

theorem idx3_isSome {α : Type} {g : List (List (List α))} {nx ny nz x y z : ℕ}
    (hr : IsRect g nx ny nz) (hx : x < nx) (hy : y < ny) (hz : z < nz) :
    ∃ a, idx3 g x y z = some a := by
  obtain ⟨gx, h1, h2, h3⟩ := rect_getElem? hr hx
  have hy' : y < gx.length := by omega
  have h4 : gx[y]? = some gx[y] := List.getElem?_eq_getElem hy'
  have hz' : z < gx[y].length := by
    have := h3 _ (List.getElem_mem hy'); omega
  exact ⟨gx[y][z], idx3_eq_some_iff.mpr ⟨gx, gx[y], h1, h4, List.getElem?_eq_getElem hz'⟩⟩

theorem bounds_of_idx3 {α : Type} {g : List (List (List α))} {nx ny nz x y z : ℕ} {a : α}
    (hr : IsRect g nx ny nz) (h : idx3 g x y z = some a) :
    x < nx ∧ y < ny ∧ z < nz := by
  obtain ⟨hlen, hall⟩ := hr
  obtain ⟨gx, gxy, h1, h2, h3⟩ := idx3_eq_some_iff.mp h
  have hx : x < g.length := by
    rcases List.getElem?_eq_some_iff.mp h1 with ⟨hlt, _⟩; exact hlt
  have hmx : gx ∈ g := List.getElem?_mem h1
  have hy : y < gx.length := by
    rcases List.getElem?_eq_some_iff.mp h2 with ⟨hlt, _⟩; exact hlt
  have hmy : gxy ∈ gx := List.getElem?_mem h2
  have hz : z < gxy.length := by
    rcases List.getElem?_eq_some_iff.mp h3 with ⟨hlt, _⟩; exact hlt
  have h4 := hall _ hmx
  have h5 := h4.2 _ hmy
  exact ⟨by omega, by omega, by omega⟩

theorem idx3_getD_eq {α : Type} {g : List (List (List α))} {x y z : ℕ} {gx : List (List α)}
    (h1 : g[x]? = some gx) :
    idx3 g x y z = (gx[y]?.bind fun gxy => gxy[z]?) := by
  simp only [idx3, h1, Option.some_bind]

end RandomCube

namespace RandomCube

/-! ### Updating the grid: `set3` -/

theorem IsRect_set3 {α : Type} {g : List (List (List α))} {nx ny nz x y z : ℕ} {a : α}
    (hr : IsRect g nx ny nz) (hx : x < nx) (hy : y < ny) (hz : z < nz) :
    IsRect (set3 g x y z a) nx ny nz := by
  obtain ⟨hlen, hall⟩ := hr
  constructor
  · rw [set3, List.length_set]; exact hlen
  · intro row hrow
    rcases List.mem_or_eq_of_mem_set hrow with hmem | heq
    · exact hall _ hmem
    · subst heq
      obtain ⟨gx, h1, h2, h3⟩ := rect_getElem? ⟨hlen, hall⟩ hx
      rw [getD_of_getElem? h1]
      refine ⟨by rw [List.length_set]; exact h2, ?_⟩
      intro b hb
      rcases List.mem_or_eq_of_mem_set hb with hmem | heq
      · exact h3 _ hmem
      · subst heq
        have hy' : y < gx.length := by omega
        rw [getD_of_getElem? (List.getElem?_eq_getElem hy'), List.length_set]
        exact h3 _ (List.getElem_mem hy')

theorem idx3_set3_self {α : Type} {g : List (List (List α))} {nx ny nz x y z : ℕ} {a : α}
    (hr : IsRect g nx ny nz) (hx : x < nx) (hy : y < ny) (hz : z < nz) :
    idx3 (set3 g x y z a) x y z = some a := by
  obtain ⟨gx, h1, h2, h3⟩ := rect_getElem? hr hx
  have hx' : x < g.length := by
    rcases List.getElem?_eq_some_iff.mp h1 with ⟨hlt, _⟩; exact hlt
  have hy' : y < gx.length := by omega
  have hz' : z < (gx.getD y []).length := by
    rw [getD_of_getElem? (List.getElem?_eq_getElem hy')]
    have := h3 _ (List.getElem_mem hy'); omega
  rw [set3, getD_of_getElem? h1]
  have hrow : (g.set x (gx.set y ((gx.getD y []).set z a)))[x]? = some (gx.set y ((gx.getD y []).set z a)) := by
    rw [List.getElem?_set_self hx']
  rw [idx3_getD_eq hrow]
  have hrow2 : (gx.set y ((gx.getD y []).set z a))[y]? = some ((gx.getD y []).set z a) := by
    rw [List.getElem?_set_self hy']
  rw [hrow2, Option.some_bind, List.getElem?_set_self hz']

theorem idx3_set3_ne {α : Type} {g : List (List (List α))} {nx ny nz x y z i j k : ℕ} {a : α}
    (hr : IsRect g nx ny nz) (hx : x < nx) (hy : y < ny) (hz : z < nz)
    (hne : (x, y, z) ≠ (i, j, k)) :
    idx3 (set3 g x y z a) i j k = idx3 g i j k := by
  obtain ⟨gx, h1, h2, h3⟩ := rect_getElem? hr hx
  have hx' : x < g.length := by
    rcases List.getElem?_eq_some_iff.mp h1 with ⟨hlt, _⟩; exact hlt
  rw [set3, getD_of_getElem? h1]
  by_cases hxi : x = i
  · subst hxi
    have hrow : (g.set x (gx.set y ((gx.getD y []).set z a)))[x]? = some (gx.set y ((gx.getD y []).set z a)) := by
      rw [List.getElem?_set_self hx']
    rw [idx3_getD_eq hrow, idx3_getD_eq h1]
    by_cases hyj : y = j
    · subst hyj
      have hy' : y < gx.length := by omega
      have hrow2 : (gx.set y ((gx.getD y []).set z a))[y]? = some ((gx.getD y []).set z a) := by
        rw [List.getElem?_set_self hy']
      rw [hrow2, Option.some_bind, getD_of_getElem? (List.getElem?_eq_getElem hy'),
        List.getElem?_eq_getElem hy', Option.some_bind]
      have hzk : z ≠ k := by intro h; exact hne (by rw [h])
      rw [List.getElem?_set_ne hzk]
    · rw [List.getElem?_set_ne hyj]
  · rw [idx3, idx3, List.getElem?_set_ne hxi]

/-! ### Characterizing `get_neighbour` on a rectangular grid -/

theorem get_neighbour_char {α : Type} {g : List (List (List α))} {nx ny nz x y z : ℕ}
    (o : Orientation) (hr : IsRect g nx ny nz) (hx : x < nx) (hy : y < ny) (hz : z < nz) :
    o.get_neighbour g x y z =
      if activeB o nx ny nz x y z then
        idx3 g (o.nbr_index x y z).1 (o.nbr_index x y z).2.1 (o.nbr_index x y z).2.2
      else none := by
  cases o <;>
    simp only [Orientation.get_neighbour, Orientation.nbr_index, activeB,
      rect_getD1 hr hx, rect_getD2 hr hx hy, hr.1, bne_iff_ne, ne_eq, ite_not]

theorem nbr_bounds {o : Orientation} {nx ny nz x y z : ℕ}
    (ha : activeB o nx ny nz x y z = true) (hx : x < nx) (hy : y < ny) (hz : z < nz) :
    (o.nbr_index x y z).1 < nx ∧ (o.nbr_index x y z).2.1 < ny ∧ (o.nbr_index x y z).2.2 < nz := by
  cases o <;> simp only [activeB, Orientation.nbr_index, bne_iff_ne, ne_eq] at ha ⊢ <;> omega

theorem nbr_ne_self {o : Orientation} {nx ny nz x y z : ℕ}
    (ha : activeB o nx ny nz x y z = true) :
    o.nbr_index x y z ≠ (x, y, z) := by
  cases o <;> simp only [activeB, Orientation.nbr_index, bne_iff_ne, ne_eq,
    Prod.mk.injEq, not_and] at ha ⊢ <;> omega

theorem nbr_symm {o : Orientation} {nx ny nz x y z i j k : ℕ}
    (ha : activeB o nx ny nz x y z = true) (hn : o.nbr_index x y z = (i, j, k))
    (hx : x < nx) (hy : y < ny) (hz : z < nz) :
    activeB o.reverse nx ny nz i j k = true ∧ o.reverse.nbr_index i j k = (x, y, z) := by
  cases o <;>
    simp only [activeB, Orientation.nbr_index, Orientation.reverse, bne_iff_ne, ne_eq,
      Prod.mk.injEq] at ha hn ⊢ <;> omega

theorem nbr_inj {o o' : Orientation} {nx ny nz x y z : ℕ}
    (ha : activeB o nx ny nz x y z = true) (ha' : activeB o' nx ny nz x y z = true)
    (hn : o.nbr_index x y z = o'.nbr_index x y z) : o = o' := by
  cases o <;> cases o' <;> first
    | rfl
    | (exfalso
       simp only [activeB, Orientation.nbr_index, bne_iff_ne, ne_eq, Prod.mk.injEq] at ha ha' hn
       omega)

theorem mem_all (o : Orientation) : o ∈ Orientation.all := by
  cases o <;> simp [Orientation.all]

theorem all_nodup : Orientation.all.Nodup := by decide

end RandomCube

namespace RandomCube

/-! ### Characterizing construction -/

theorem pairs_length (l : List ℚ) : (pairs l).length = l.length - 1 := by
  simp only [pairs, List.length_zip, List.length_tail]
  omega

theorem pairs_getElem? {l : List ℚ} {x : ℕ} (h : x + 1 < l.length) :
    (pairs l)[x]? = some (l.getD x 0, l.getD (x + 1) 0) := by
  have hx : x < l.length := by omega
  have h1 : l[x]? = some (l.getD x 0) := by
    rw [List.getElem?_eq_getElem hx, List.getD_eq_getElem?_getD, List.getElem?_eq_getElem hx]
    rfl
  have h2 : l.tail[x]? = some (l.getD (x + 1) 0) := by
    rw [List.getElem?_tail, List.getElem?_eq_getElem h, List.getD_eq_getElem?_getD,
      List.getElem?_eq_getElem h]
    rfl
  rw [pairs, List.getElem?_zip_eq_some]
  exact ⟨h1, h2⟩

theorem prism_grid_rect (xs ys zs : List ℚ) :
    IsRect (prism_grid xs ys zs) (xs.length - 1) (ys.length - 1) (zs.length - 1) := by
  refine ⟨by simp [prism_grid, pairs_length], ?_⟩
  intro a ha
  rw [prism_grid] at ha
  obtain ⟨xp, _, rfl⟩ := List.mem_map.mp ha
  refine ⟨by simp [pairs_length], ?_⟩
  intro b hb
  obtain ⟨yp, _, rfl⟩ := List.mem_map.mp hb
  simp [pairs_length]

theorem idx3_prism_grid {xs ys zs : List ℚ} {x y z : ℕ}
    (hx : x < xs.length - 1) (hy : y < ys.length - 1) (hz : z < zs.length - 1) :
    idx3 (prism_grid xs ys zs) x y z =
      some (mkPrism (xs.getD x 0) (xs.getD (x + 1) 0) (ys.getD y 0) (ys.getD (y + 1) 0)
        (zs.getD z 0) (zs.getD (z + 1) 0)) := by
  have hx' : x + 1 < xs.length := by omega
  have hy' : y + 1 < ys.length := by omega
  have hz' : z + 1 < zs.length := by omega
  have h1 : (prism_grid xs ys zs)[x]? =
      some ((pairs ys).map fun yp => (pairs zs).map fun zp =>
        mkPrism (xs.getD x 0) (xs.getD (x + 1) 0) yp.1 yp.2 zp.1 zp.2) := by
    rw [prism_grid, List.getElem?_map, pairs_getElem? hx']
    rfl
  rw [idx3_getD_eq h1, List.getElem?_map, pairs_getElem? hy']
  simp only [Option.map_some', Option.some_bind, List.getElem?_map, pairs_getElem? hz']

theorem init_graph_eq (xs ys zs : List ℚ) :
    (PrismGraph.init xs ys zs).graph =
      (List.range (prism_grid xs ys zs).length).map fun x =>
        (List.range ((prism_grid xs ys zs).getD x []).length).map fun y =>
          (List.range (((prism_grid xs ys zs).getD x []).getD y []).length).map fun z =>
            { prism := idx3 (prism_grid xs ys zs) x y z
              neighbour_map := initMap xs ys zs x y z } := rfl

theorem init_rect (xs ys zs : List ℚ) :
    IsRect (PrismGraph.init xs ys zs).graph (xs.length - 1) (ys.length - 1) (zs.length - 1) := by
  have hpg := prism_grid_rect xs ys zs
  rw [init_graph_eq]
  refine ⟨by rw [List.length_map, List.length_range]; exact hpg.1, ?_⟩
  intro a ha
  obtain ⟨x, hx, rfl⟩ := List.mem_map.mp ha
  rw [List.mem_range, hpg.1] at hx
  refine ⟨by rw [List.length_map, List.length_range]; exact rect_getD1 hpg hx, ?_⟩
  intro b hb
  obtain ⟨y, hy, rfl⟩ := List.mem_map.mp hb
  rw [List.mem_range, rect_getD1 hpg hx] at hy
  rw [List.length_map, List.length_range]
  exact rect_getD2 hpg hx hy

theorem idx3_init {xs ys zs : List ℚ} {x y z : ℕ}
    (hx : x < xs.length - 1) (hy : y < ys.length - 1) (hz : z < zs.length - 1) :
    idx3 (PrismGraph.init xs ys zs).graph x y z =
      some { prism := idx3 (prism_grid xs ys zs) x y z
             neighbour_map := initMap xs ys zs x y z } := by
  have hpg := prism_grid_rect xs ys zs
  have hx1 : x < (prism_grid xs ys zs).length := by rw [hpg.1]; omega
  have hy1 : y < ((prism_grid xs ys zs).getD x []).length := by rw [rect_getD1 hpg hx]; omega
  have hz1 : z < (((prism_grid xs ys zs).getD x []).getD y []).length := by
    rw [rect_getD2 hpg hx hy]; omega
  rw [init_graph_eq]
  have h1 : ((List.range (prism_grid xs ys zs).length).map fun x =>
      (List.range ((prism_grid xs ys zs).getD x []).length).map fun y =>
        (List.range (((prism_grid xs ys zs).getD x []).getD y []).length).map fun z =>
          PrismGraphNode.mk (idx3 (prism_grid xs ys zs) x y z) (initMap xs ys zs x y z))[x]?
      = some ((List.range ((prism_grid xs ys zs).getD x []).length).map fun y =>
        (List.range (((prism_grid xs ys zs).getD x []).getD y []).length).map fun z =>
          PrismGraphNode.mk (idx3 (prism_grid xs ys zs) x y z) (initMap xs ys zs x y z)) := by
    rw [List.getElem?_map, List.getElem?_range hx1]
    rfl
  rw [idx3_getD_eq h1, List.getElem?_map, List.getElem?_range hy1]
  simp only [Option.map_some', Option.some_bind, List.getElem?_map, List.getElem?_range hz1]

end RandomCube

namespace RandomCube

/-! ### Characterizing the unlink loop of `delete_prism` -/

theorem node_eta (n : PrismGraphNode) : { n with neighbour_map := n.neighbour_map } = n := rfl

theorem IsRect_popStep {gr : List (List (List PrismGraphNode))} {nx ny nz x y z : ℕ}
    {o : Orientation} (hr : IsRect gr nx ny nz) (hx : x < nx) (hy : y < ny) (hz : z < nz) :
    IsRect (popStep x y z gr o) nx ny nz := by
  rw [popStep]
  rcases h : o.get_neighbour gr x y z with _ | nb
  · exact hr
  · rw [get_neighbour_char o hr hx hy hz] at h
    by_cases ha : activeB o nx ny nz x y z = true
    · obtain ⟨b1, b2, b3⟩ := nbr_bounds ha hx hy hz
      exact IsRect_set3 hr b1 b2 b3
    · rw [if_neg ha] at h; exact absurd h (by simp)

theorem popStep_idx3 {gr : List (List (List PrismGraphNode))} {nx ny nz x y z : ℕ}
    {o : Orientation} (hr : IsRect gr nx ny nz) (hx : x < nx) (hy : y < ny) (hz : z < nz)
    (i j k : ℕ) :
    idx3 (popStep x y z gr o) i j k = (idx3 gr i j k).map fun n =>
      { n with neighbour_map :=
          if activeB o nx ny nz x y z = true ∧ o.nbr_index x y z = (i, j, k)
          then popKey n.neighbour_map o.reverse else n.neighbour_map } := by
  rw [popStep]
  by_cases ha : activeB o nx ny nz x y z = true
  · obtain ⟨b1, b2, b3⟩ := nbr_bounds ha hx hy hz
    obtain ⟨nb, hnb⟩ := idx3_isSome hr b1 b2 b3
    have h : o.get_neighbour gr x y z = some nb := by
      rw [get_neighbour_char o hr hx hy hz, if_pos ha]; exact hnb
    rw [h]
    by_cases hn : o.nbr_index x y z = (i, j, k)
    · have hi : (o.nbr_index x y z).1 = i := by rw [hn]
      have hj : (o.nbr_index x y z).2.1 = j := by rw [hn]
      have hk : (o.nbr_index x y z).2.2 = k := by rw [hn]
      rw [hi, hj, hk] at hnb ⊢
      rw [idx3_set3_self hr (hi ▸ b1) (hj ▸ b2) (hk ▸ b3), hnb]
      simp only [Option.map_some']
      rw [if_pos ⟨ha, hn⟩]
    · have hne : ((o.nbr_index x y z).1, (o.nbr_index x y z).2.1, (o.nbr_index x y z).2.2)
          ≠ (i, j, k) := by
        intro hc; exact hn (by rw [← hc])
      rw [idx3_set3_ne hr b1 b2 b3 hne]
      rcases hijk : idx3 gr i j k with _ | n
      · rfl
      · simp only [Option.map_some']
        rw [if_neg (fun hc => hn hc.2), node_eta]
  · have h : o.get_neighbour gr x y z = none := by
      rw [get_neighbour_char o hr hx hy hz, if_neg ha]
    rw [h]
    rcases hijk : idx3 gr i j k with _ | n
    · rfl
    · simp only [Option.map_some']
      rw [if_neg (fun hc => ha hc.1), node_eta]

theorem foldl_popStep_rect {gr : List (List (List PrismGraphNode))} {nx ny nz x y z : ℕ}
    (L : List Orientation) (hr : IsRect gr nx ny nz) (hx : x < nx) (hy : y < ny) (hz : z < nz) :
    IsRect (L.foldl (popStep x y z) gr) nx ny nz := by
  induction L generalizing gr with
  | nil => exact hr
  | cons o L ih => exact ih (IsRect_popStep hr hx hy hz)

theorem foldl_popStep_idx3 {gr : List (List (List PrismGraphNode))} {nx ny nz x y z : ℕ}
    (L : List Orientation) (hr : IsRect gr nx ny nz) (hx : x < nx) (hy : y < ny) (hz : z < nz)
    (i j k : ℕ) :
    idx3 (L.foldl (popStep x y z) gr) i j k = (idx3 gr i j k).map fun n =>
      { n with neighbour_map := popsFor nx ny nz x y z L i j k n.neighbour_map } := by
  induction L generalizing gr with
  | nil =>
    simp only [List.foldl_nil, popsFor, node_eta]
    rcases idx3 gr i j k with _ | n <;> rfl
  | cons o L ih =>
    rw [List.foldl_cons, ih (IsRect_popStep hr hx hy hz), popStep_idx3 hr hx hy hz i j k,
      Option.map_map]
    rfl

theorem popsFor_id {nx ny nz x y z : ℕ} {L : List Orientation} {i j k : ℕ}
    {m : List (Orientation × Prism)}
    (h : ∀ o ∈ L, ¬(activeB o nx ny nz x y z = true ∧ o.nbr_index x y z = (i, j, k))) :
    popsFor nx ny nz x y z L i j k m = m := by
  induction L generalizing m with
  | nil => rfl
  | cons a L ih =>
    rw [popsFor, List.foldl_cons, if_neg (h a (List.mem_cons_self a L))]
    exact ih fun o ho => h o (List.mem_cons_of_mem a ho)

theorem popsFor_single {nx ny nz x y z : ℕ} {L : List Orientation} {i j k : ℕ}
    {m : List (Orientation × Prism)} {o₀ : Orientation} (hnd : L.Nodup) (hmem : o₀ ∈ L)
    (h : ∀ o ∈ L, ((activeB o nx ny nz x y z = true ∧ o.nbr_index x y z = (i, j, k)) ↔ o = o₀)) :
    popsFor nx ny nz x y z L i j k m = popKey m o₀.reverse := by
  induction L generalizing m with
  | nil => cases hmem
  | cons a L ih =>
    by_cases hao : a = o₀
    · subst hao
      rw [popsFor, List.foldl_cons, if_pos ((h a (List.mem_cons_self a L)).mpr rfl)]
      have hnotin : a ∉ L := (List.nodup_cons.mp hnd).1
      exact popsFor_id fun o ho hc => by
        have := (h o (List.mem_cons_of_mem a ho)).mp hc
        exact hnotin (this ▸ ho)
    · have hmem' : o₀ ∈ L := by
        rcases List.mem_cons.mp hmem with he | hm
        · exact absurd he.symm hao
        · exact hm
      rw [popsFor, List.foldl_cons,
        if_neg (fun hc => hao ((h a (List.mem_cons_self a L)).mp hc))]
      exact ih (List.nodup_cons.mp hnd).2 hmem' fun o ho => h o (List.mem_cons_of_mem a ho)

end RandomCube

namespace RandomCube

/-! ### The effect of one deletion, node by node -/

theorem delete_prism_eq {g : PrismGraph} {x y z : ℕ} {node : PrismGraphNode} {p : Prism}
    (hn : idx3 g.graph x y z = some node) (hp : node.prism = some p) :
    g.delete_prism x y z = some (p.volume,
      ⟨Orientation.all.foldl (popStep x y z)
        (set3 g.graph x y z { node with prism := none })⟩) := by
  simp only [PrismGraph.delete_prism, hn, hp]

theorem delete_prism_absent {g : PrismGraph} {x y z : ℕ} {node : PrismGraphNode}
    (hn : idx3 g.graph x y z = some node) (hp : node.prism = none) :
    g.delete_prism x y z = some (0, g) := by
  simp only [PrismGraph.delete_prism, hn, hp]

theorem delete_rect {g : PrismGraph} {nx ny nz x y z : ℕ} {node : PrismGraphNode} {p : Prism}
    (hr : IsRect g.graph nx ny nz) (hn : idx3 g.graph x y z = some node)
    (hp : node.prism = some p) :
    IsRect (Orientation.all.foldl (popStep x y z)
      (set3 g.graph x y z { node with prism := none })) nx ny nz := by
  obtain ⟨hx, hy, hz⟩ := bounds_of_idx3 hr hn
  exact foldl_popStep_rect _ (IsRect_set3 hr hx hy hz) hx hy hz

theorem delete_idx3_target {g : PrismGraph} {nx ny nz x y z : ℕ} {node : PrismGraphNode}
    {p : Prism} (hr : IsRect g.graph nx ny nz) (hn : idx3 g.graph x y z = some node)
    (hp : node.prism = some p) :
    idx3 (Orientation.all.foldl (popStep x y z)
      (set3 g.graph x y z { node with prism := none })) x y z
      = some { node with prism := none } := by
  obtain ⟨hx, hy, hz⟩ := bounds_of_idx3 hr hn
  have hr1 := IsRect_set3 (a := { node with prism := none }) hr hx hy hz
  rw [foldl_popStep_idx3 Orientation.all hr1 hx hy hz, idx3_set3_self hr hx hy hz,
    Option.map_some']
  rw [popsFor_id fun o _ hc => nbr_ne_self hc.1 hc.2, node_eta]

theorem delete_idx3_nbr {g : PrismGraph} {nx ny nz x y z : ℕ} {node : PrismGraphNode}
    {p : Prism} (hr : IsRect g.graph nx ny nz) (hn : idx3 g.graph x y z = some node)
    (hp : node.prism = some p) {o : Orientation} (ha : activeB o nx ny nz x y z = true)
    {nb : PrismGraphNode}
    (hnb : idx3 g.graph (o.nbr_index x y z).1 (o.nbr_index x y z).2.1
      (o.nbr_index x y z).2.2 = some nb) :
    idx3 (Orientation.all.foldl (popStep x y z)
      (set3 g.graph x y z { node with prism := none }))
      (o.nbr_index x y z).1 (o.nbr_index x y z).2.1 (o.nbr_index x y z).2.2
      = some { nb with neighbour_map := popKey nb.neighbour_map o.reverse } := by
  obtain ⟨hx, hy, hz⟩ := bounds_of_idx3 hr hn
  have hr1 := IsRect_set3 (a := { node with prism := none }) hr hx hy hz
  have hne : (x, y, z) ≠ ((o.nbr_index x y z).1, (o.nbr_index x y z).2.1,
      (o.nbr_index x y z).2.2) := fun hc => nbr_ne_self ha hc.symm
  rw [foldl_popStep_idx3 Orientation.all hr1 hx hy hz, idx3_set3_ne hr hx hy hz hne, hnb,
    Option.map_some']
  have hsingle : popsFor nx ny nz x y z Orientation.all (o.nbr_index x y z).1
      (o.nbr_index x y z).2.1 (o.nbr_index x y z).2.2 nb.neighbour_map
      = popKey nb.neighbour_map o.reverse := by
    refine popsFor_single all_nodup (mem_all o) fun o' _ => ⟨fun hc => ?_, fun hc => ?_⟩
    · exact nbr_inj hc.1 ha (by rw [hc.2])
    · subst hc; exact ⟨ha, rfl⟩
  rw [hsingle]

theorem delete_idx3_other {g : PrismGraph} {nx ny nz x y z : ℕ} {node : PrismGraphNode}
    {p : Prism} (hr : IsRect g.graph nx ny nz) (hn : idx3 g.graph x y z = some node)
    (hp : node.prism = some p) {i j k : ℕ} (hne : (x, y, z) ≠ (i, j, k))
    (hno : ∀ o : Orientation, activeB o nx ny nz x y z = true →
      o.nbr_index x y z ≠ (i, j, k)) :
    idx3 (Orientation.all.foldl (popStep x y z)
      (set3 g.graph x y z { node with prism := none })) i j k = idx3 g.graph i j k := by
  obtain ⟨hx, hy, hz⟩ := bounds_of_idx3 hr hn
  have hr1 := IsRect_set3 (a := { node with prism := none }) hr hx hy hz
  rcases hq : idx3 g.graph i j k with _ | n
  · rw [foldl_popStep_idx3 Orientation.all hr1 hx hy hz, idx3_set3_ne hr hx hy hz hne, hq]
    rfl
  · rw [foldl_popStep_idx3 Orientation.all hr1 hx hy hz, idx3_set3_ne hr hx hy hz hne, hq,
      Option.map_some', popsFor_id fun o _ hc => hno o hc.1 hc.2, node_eta]

end RandomCube

namespace RandomCube

/-! ### The link invariant: every in-range node's neighbour map holds
exactly the in-grid neighbours whose prism is still present -/

theorem reverse_reverse (o : Orientation) : o.reverse.reverse = o := by
  cases o <;> rfl

theorem bind_prism_congr {u w : Option PrismGraphNode}
    (h : u.map PrismGraphNode.prism = w.map PrismGraphNode.prism)
    (f : Option Prism → Option (Orientation × Prism)) :
    u.bind (fun nb => f nb.prism) = w.bind (fun nb => f nb.prism) := by
  rcases u with _ | nu <;> rcases w with _ | nw <;> simp_all

theorem popKey_filterMap {L : List Orientation} {f : Orientation → Option (Orientation × Prism)}
    {key : Orientation} (hf : ∀ o e, f o = some e → e.1 = o) :
    popKey (L.filterMap f) key = L.filterMap fun o => if o = key then none else f o := by
  rw [popKey, List.filter_filterMap]
  refine List.filterMap_congr fun o _ => ?_
  rcases hfo : f o with _ | e
  · simp [Option.filter]
  · have heo : e.1 = o := hf o e hfo
    by_cases hok : o = key
    · subst hok
      simp [Option.filter, heo]
    · simp only [Option.filter, if_neg hok]
      have hd : (decide (e.1 ≠ key)) = true := by simp [heo, hok]
      rw [if_pos hd]

theorem nbEntry_key {g : PrismGraph} {x y z : ℕ} {o : Orientation} {e : Orientation × Prism}
    (h : nbEntry g x y z o = some e) : e.1 = o := by
  rw [nbEntry] at h
  rcases hn : o.get_neighbour g.graph x y z with _ | nb
  · rw [hn] at h; cases h
  · rw [hn, Option.some_bind] at h
    rcases hp : nb.prism with _ | p
    · rw [hp] at h; cases h
    · rw [hp, Option.map_some'] at h
      cases h
      rfl

end RandomCube

namespace RandomCube

theorem delete_prism_map_ne {g : PrismGraph} {nx ny nz x y z : ℕ} {node : PrismGraphNode}
    {p : Prism} (hr : IsRect g.graph nx ny nz) (hn : idx3 g.graph x y z = some node)
    (hp : node.prism = some p) {i j k : ℕ} (hne : (x, y, z) ≠ (i, j, k)) :
    (idx3 (Orientation.all.foldl (popStep x y z)
        (set3 g.graph x y z { node with prism := none })) i j k).map PrismGraphNode.prism
      = (idx3 g.graph i j k).map PrismGraphNode.prism := by
  obtain ⟨hx, hy, hz⟩ := bounds_of_idx3 hr hn
  have hr1 := IsRect_set3 (a := { node with prism := none }) hr hx hy hz
  rw [foldl_popStep_idx3 Orientation.all hr1 hx hy hz, idx3_set3_ne hr hx hy hz hne,
    Option.map_map]
  rcases idx3 g.graph i j k with _ | n <;> rfl

theorem nbEntry_after_delete {g : PrismGraph} {nx ny nz x y z : ℕ} {node : PrismGraphNode}
    {p : Prism} (hr : IsRect g.graph nx ny nz) (hn : idx3 g.graph x y z = some node)
    (hp : node.prism = some p) {i j k : ℕ} (hi : i < nx) (hj : j < ny) (hk : k < nz)
    (o : Orientation)
    (hno : activeB o nx ny nz i j k = true → o.nbr_index i j k ≠ (x, y, z)) :
    nbEntry ⟨Orientation.all.foldl (popStep x y z)
      (set3 g.graph x y z { node with prism := none })⟩ i j k o = nbEntry g i j k o := by
  have hrG := delete_rect hr hn hp
  rw [nbEntry, nbEntry, get_neighbour_char o hrG hi hj hk, get_neighbour_char o hr hi hj hk]
  by_cases ha : activeB o nx ny nz i j k = true
  · rw [if_pos ha, if_pos ha]
    have hne : (x, y, z) ≠ ((o.nbr_index i j k).1, (o.nbr_index i j k).2.1,
        (o.nbr_index i j k).2.2) := by
      intro hc
      exact hno ha hc.symm
    exact bind_prism_congr (delete_prism_map_ne hr hn hp hne)
      (fun q => q.map fun pr => (o, pr))
  · rw [if_neg ha, if_neg ha]

theorem nbEntry_after_delete_toward {g : PrismGraph} {nx ny nz x y z : ℕ}
    {node : PrismGraphNode} {p : Prism} (hr : IsRect g.graph nx ny nz)
    (hn : idx3 g.graph x y z = some node) (hp : node.prism = some p) {i j k : ℕ}
    (hi : i < nx) (hj : j < ny) (hk : k < nz) (o : Orientation)
    (h1 : activeB o nx ny nz i j k = true) (h2 : o.nbr_index i j k = (x, y, z)) :
    nbEntry ⟨Orientation.all.foldl (popStep x y z)
      (set3 g.graph x y z { node with prism := none })⟩ i j k o = none := by
  have hrG := delete_rect hr hn hp
  rw [nbEntry, get_neighbour_char o hrG hi hj hk, if_pos h1]
  have hc1 : (o.nbr_index i j k).1 = x := by rw [h2]
  have hc2 : (o.nbr_index i j k).2.1 = y := by rw [h2]
  have hc3 : (o.nbr_index i j k).2.2 = z := by rw [h2]
  rw [hc1, hc2, hc3, delete_idx3_target hr hn hp, Option.some_bind]
  rfl

theorem init_inv (xs ys zs : List ℚ) : Inv (PrismGraph.init xs ys zs) := by
  intro x y z node hn
  have hr := init_rect xs ys zs
  have hpg := prism_grid_rect xs ys zs
  obtain ⟨hx, hy, hz⟩ := bounds_of_idx3 hr hn
  rw [idx3_init hx hy hz] at hn
  have hnode := Option.some.inj hn
  rw [← hnode]
  show initMap xs ys zs x y z = predictedMap (PrismGraph.init xs ys zs) x y z
  rw [initMap, predictedMap]
  refine List.filterMap_congr fun o _ => ?_
  rw [nbEntry, get_neighbour_char o hpg hx hy hz, get_neighbour_char o hr hx hy hz]
  by_cases ha : activeB o (xs.length - 1) (ys.length - 1) (zs.length - 1) x y z = true
  · rw [if_pos ha, if_pos ha]
    obtain ⟨b1, b2, b3⟩ := nbr_bounds ha hx hy hz
    rw [idx3_init b1 b2 b3, Option.some_bind]
  · rw [if_neg ha, if_neg ha]
    rfl

theorem delete_preserves_inv {g : PrismGraph} {nx ny nz x y z : ℕ} {v : ℚ} {g' : PrismGraph}
    (hr : IsRect g.graph nx ny nz) (hinv : Inv g)
    (h : g.delete_prism x y z = some (v, g')) :
    IsRect g'.graph nx ny nz ∧ Inv g' := by
  rcases hn : idx3 g.graph x y z with _ | node
  · rw [PrismGraph.delete_prism, hn] at h; cases h
  rcases hp : node.prism with _ | p
  · rw [delete_prism_absent hn hp] at h
    have h2 := Option.some.inj h
    have hg : g = g' := congrArg Prod.snd h2
    rw [← hg]
    exact ⟨hr, hinv⟩
  · rw [delete_prism_eq hn hp] at h
    have h2 := Option.some.inj h
    have hg : (⟨Orientation.all.foldl (popStep x y z)
        (set3 g.graph x y z { node with prism := none })⟩ : PrismGraph) = g' :=
      congrArg Prod.snd h2
    rw [← hg]
    obtain ⟨hx, hy, hz⟩ := bounds_of_idx3 hr hn
    have hrG := delete_rect hr hn hp
    refine ⟨hrG, ?_⟩
    intro i j k nodeF hF
    obtain ⟨hi, hj, hk⟩ := bounds_of_idx3 hrG hF
    by_cases hij : (x, y, z) = (i, j, k)
    · -- the deleted node itself: map untouched, and no neighbour entry changes
      have hxi : x = i := congrArg Prod.fst hij
      have hyj : y = j := congrArg (fun t => t.2.1) hij
      have hzk : z = k := congrArg (fun t => t.2.2) hij
      subst hxi; subst hyj; subst hzk
      rw [delete_idx3_target hr hn hp] at hF
      have hnodeF := (Option.some.inj hF).symm
      rw [hnodeF]
      show node.neighbour_map = _
      have hmaps : predictedMap (⟨Orientation.all.foldl (popStep x y z)
          (set3 g.graph x y z { node with prism := none })⟩ : PrismGraph) x y z
          = predictedMap g x y z := by
        rw [predictedMap, predictedMap]
        exact List.filterMap_congr fun o _ =>
          nbEntry_after_delete hr hn hp hx hy hz o (fun ha hc => nbr_ne_self ha hc)
      rw [hmaps]
      exact hinv x y z node hn
    · by_cases hex : ∃ o₀, activeB o₀ nx ny nz x y z = true ∧ o₀.nbr_index x y z = (i, j, k)
      · -- a geometric neighbour of the deleted node: its reverse key is popped
        obtain ⟨o₀, ha₀, hn₀⟩ := hex
        have hc1 : (o₀.nbr_index x y z).1 = i := by rw [hn₀]
        have hc2 : (o₀.nbr_index x y z).2.1 = j := by rw [hn₀]
        have hc3 : (o₀.nbr_index x y z).2.2 = k := by rw [hn₀]
        obtain ⟨nb, hnb⟩ := idx3_isSome hr hi hj hk
        have hnb2 : idx3 g.graph (o₀.nbr_index x y z).1 (o₀.nbr_index x y z).2.1
            (o₀.nbr_index x y z).2.2 = some nb := by rw [hc1, hc2, hc3]; exact hnb
        have hkey := delete_idx3_nbr hr hn hp ha₀ hnb2
        rw [hc1, hc2, hc3] at hkey
        rw [hkey] at hF
        have hnodeF := (Option.some.inj hF).symm
        rw [hnodeF]
        show popKey nb.neighbour_map o₀.reverse = _
        rw [hinv i j k nb hnb, predictedMap, predictedMap,
          popKey_filterMap (fun o e => nbEntry_key (g := g) (x := i) (y := j) (z := k))]
        refine List.filterMap_congr fun o _ => ?_
        obtain ⟨hs1, hs2⟩ := nbr_symm ha₀ hn₀ hx hy hz
        by_cases ho : o = o₀.reverse
        · subst ho
          rw [if_pos rfl]
          exact (nbEntry_after_delete_toward hr hn hp hi hj hk o₀.reverse hs1 hs2).symm
        · rw [if_neg ho]
          refine (nbEntry_after_delete hr hn hp hi hj hk o fun ha hc => ?_).symm
          obtain ⟨ht1, ht2⟩ := nbr_symm ha hc hi hj hk
          have : o.reverse = o₀ := nbr_inj ht1 ha₀ (by rw [ht2, hn₀])
          exact ho (by rw [← this, reverse_reverse])
      · -- unrelated node: untouched, and its neighbour entries are unchanged
        have hother := delete_idx3_other hr hn hp hij
          (fun o ha hc => hex ⟨o, ha, hc⟩)
        rw [hother] at hF
        rw [hinv i j k nodeF hF, predictedMap, predictedMap]
        refine List.filterMap_congr fun o _ => ?_
        refine (nbEntry_after_delete hr hn hp hi hj hk o fun ha hc => ?_).symm
        obtain ⟨ht1, ht2⟩ := nbr_symm ha hc hi hj hk
        exact hex ⟨o.reverse, ht1, ht2⟩
end RandomCube

namespace RandomCube

/-! ### Reachability and the derived link-consistency facts -/

theorem runDeletes_preserves {nx ny nz : ℕ} {g : PrismGraph} {ds : List (ℕ × ℕ × ℕ)}
    {s : ℚ} {g' : PrismGraph} (hr : IsRect g.graph nx ny nz) (hinv : Inv g)
    (h : runDeletes g ds = some (s, g')) : IsRect g'.graph nx ny nz ∧ Inv g' := by
  induction ds generalizing g s with
  | nil =>
    have h2 := Option.some.inj h
    have hg : g = g' := congrArg Prod.snd h2
    rw [← hg]
    exact ⟨hr, hinv⟩
  | cons d ds ih =>
    rw [runDeletes] at h
    rcases hd : g.delete_prism d.1 d.2.1 d.2.2 with _ | r
    · rw [hd] at h; cases h
    rw [hd, Option.some_bind] at h
    rcases hrun : runDeletes r.2 ds with _ | t
    · rw [hrun] at h; cases h
    rw [hrun] at h
    have h2 := Option.some.inj h
    have hg : t.2 = g' := congrArg Prod.snd h2
    have hd2 : g.delete_prism d.1 d.2.1 d.2.2 = some (r.1, r.2) := by rw [hd]
    have hstep := delete_preserves_inv hr hinv hd2
    have hrun2 : runDeletes r.2 ds = some (t.1, g') := by rw [hrun, ← hg]
    exact ih hstep.1 hstep.2 hrun2

theorem reachable_inv {g : PrismGraph} (h : Reachable g) :
    (∃ nx ny nz, IsRect g.graph nx ny nz) ∧ Inv g := by
  obtain ⟨xs, ys, zs, ds, s, h⟩ := h
  have := runDeletes_preserves (init_rect xs ys zs) (init_inv xs ys zs) h
  exact ⟨⟨_, _, _, this.1⟩, this.2⟩

theorem lookup_not_mem {f : Orientation → Option (Orientation × Prism)}
    (hf : ∀ o e, f o = some e → e.1 = o) {L : List Orientation} {o₀ : Orientation}
    (hmem : o₀ ∉ L) : List.lookup o₀ (L.filterMap f) = none := by
  induction L with
  | nil => rfl
  | cons a L ih =>
    have hne : o₀ ≠ a := fun hc => hmem (hc ▸ List.mem_cons_self a L)
    have hL : o₀ ∉ L := fun hc => hmem (List.mem_cons_of_mem a hc)
    rw [List.filterMap_cons]
    rcases hfa : f a with _ | e
    · exact ih hL
    · rw [List.lookup_cons]
      have : (o₀ == e.1) = false := by
        rw [hf a e hfa]
        exact beq_false_of_ne hne
      rw [this]
      exact ih hL

theorem lookup_filterMap {f : Orientation → Option (Orientation × Prism)}
    (hf : ∀ o e, f o = some e → e.1 = o) {L : List Orientation} {o₀ : Orientation}
    (hmem : o₀ ∈ L) (hnd : L.Nodup) :
    List.lookup o₀ (L.filterMap f) = (f o₀).map Prod.snd := by
  induction L with
  | nil => cases hmem
  | cons a L ih =>
    rw [List.filterMap_cons]
    by_cases hoa : o₀ = a
    · subst hoa
      have hnotin : o₀ ∉ L := (List.nodup_cons.mp hnd).1
      rcases hfa : f o₀ with _ | e
      · rw [lookup_not_mem hf hnotin]; rfl
      · rw [List.lookup_cons, hf o₀ e hfa, beq_self_eq_true]
        rfl
    · have hmem' : o₀ ∈ L := by
        rcases List.mem_cons.mp hmem with he | hm
        · exact absurd he hoa
        · exact hm
      rcases hfa : f a with _ | e
      · exact ih hmem' (List.nodup_cons.mp hnd).2
      · rw [List.lookup_cons]
        have : (o₀ == e.1) = false := by
          rw [hf a e hfa]
          exact beq_false_of_ne hoa
        rw [this]
        exact ih hmem' (List.nodup_cons.mp hnd).2

/-- In any state satisfying the invariant, a node's neighbour map looks up
direction `o` to exactly what `nbEntry` predicts. -/
theorem inv_lookup {g : PrismGraph} (hinv : Inv g) {x y z : ℕ} {node : PrismGraphNode}
    (hn : idx3 g.graph x y z = some node) (o : Orientation) :
    node.neighbour_map.lookup o = (nbEntry g x y z o).map Prod.snd := by
  rw [hinv x y z node hn, predictedMap,
    lookup_filterMap (fun o' e => nbEntry_key (g := g) (x := x) (y := y) (z := z))
      (mem_all o) all_nodup]

theorem get_neighbour_imp_idx3 {α : Type} {o : Orientation} {grid : List (List (List α))}
    {x y z : ℕ} {nb : α} (h : o.get_neighbour grid x y z = some nb) :
    idx3 grid (o.nbr_index x y z).1 (o.nbr_index x y z).2.1 (o.nbr_index x y z).2.2
      = some nb := by
  cases o <;>
    (rw [Orientation.get_neighbour] at h
     rw [Orientation.nbr_index]
     split at h
     · cases h
     · exact h)

theorem get_neighbour_active {α : Type} {o : Orientation} {grid : List (List (List α))}
    {nx ny nz x y z : ℕ} {nb : α} (hr : IsRect grid nx ny nz)
    (hx : x < nx) (hy : y < ny) (hz : z < nz)
    (h : o.get_neighbour grid x y z = some nb) : activeB o nx ny nz x y z = true := by
  by_cases ha : activeB o nx ny nz x y z = true
  · exact ha
  · rw [get_neighbour_char o hr hx hy hz, if_neg ha] at h
    cases h

end RandomCube

namespace RandomCube

/-! ### Volume book-keeping -/

theorem sum_map_set {α : Type} (f : α → ℚ) {l : List α} {i : ℕ} {b : α} (a : α)
    (h : l[i]? = some b) :
    ((l.set i a).map f).sum = (l.map f).sum - f b + f a := by
  induction l generalizing i with
  | nil => cases h
  | cons c l ih =>
    cases i with
    | zero =>
      rw [List.getElem?_cons_zero] at h
      have hb : c = b := Option.some.inj h
      rw [List.set_cons_zero, List.map_cons, List.map_cons, List.sum_cons, List.sum_cons, hb]
      ring
    | succ i =>
      rw [List.getElem?_cons_succ] at h
      rw [List.set_cons_succ, List.map_cons, List.map_cons, List.sum_cons, List.sum_cons,
        ih h]
      ring

theorem gridVol_set3 {gr : List (List (List PrismGraphNode))} {x y z : ℕ}
    {nd : PrismGraphNode} (n : PrismGraphNode) (hb : idx3 gr x y z = some nd) :
    ((set3 gr x y z n).map fun a => (a.map fun b => (b.map nodeVol).sum).sum).sum
      = (gr.map fun a => (a.map fun b => (b.map nodeVol).sum).sum).sum - nodeVol nd + nodeVol n := by
  obtain ⟨gx, gxy, h1, h2, h3⟩ := idx3_eq_some_iff.mp hb
  rw [set3, getD_of_getElem? h1, getD_of_getElem? h2]
  rw [sum_map_set _ _ h1, sum_map_set _ _ h2, sum_map_set _ _ h3]
  ring

theorem popStep_vol {x y z : ℕ} {gr : List (List (List PrismGraphNode))} (o : Orientation) :
    ((popStep x y z gr o).map fun a => (a.map fun b => (b.map nodeVol).sum).sum).sum
      = (gr.map fun a => (a.map fun b => (b.map nodeVol).sum).sum).sum := by
  rw [popStep]
  rcases h : o.get_neighbour gr x y z with _ | nb
  · rfl
  · rw [gridVol_set3 _ (get_neighbour_imp_idx3 h)]
    have : nodeVol { nb with neighbour_map := popKey nb.neighbour_map o.reverse }
        = nodeVol nb := rfl
    rw [this]
    ring

theorem foldl_popStep_vol {x y z : ℕ} {gr : List (List (List PrismGraphNode))}
    (L : List Orientation) :
    ((L.foldl (popStep x y z) gr).map fun a => (a.map fun b => (b.map nodeVol).sum).sum).sum
      = (gr.map fun a => (a.map fun b => (b.map nodeVol).sum).sum).sum := by
  induction L generalizing gr with
  | nil => rfl
  | cons o L ih => rw [List.foldl_cons, ih, popStep_vol]

theorem delete_vol {g : PrismGraph} {x y z : ℕ} {v : ℚ} {g' : PrismGraph}
    (h : g.delete_prism x y z = some (v, g')) :
    g'.totalVolume = g.totalVolume - v := by
  rcases hn : idx3 g.graph x y z with _ | node
  · rw [PrismGraph.delete_prism, hn] at h; cases h
  rcases hp : node.prism with _ | p
  · rw [delete_prism_absent hn hp] at h
    have h2 := Option.some.inj h
    have hg : g = g' := congrArg Prod.snd h2
    have hv : (0 : ℚ) = v := congrArg Prod.fst h2
    rw [← hg, ← hv]
    ring
  · rw [delete_prism_eq hn hp] at h
    have h2 := Option.some.inj h
    have hv : p.volume = v := congrArg Prod.fst h2
    have hg : (⟨Orientation.all.foldl (popStep x y z)
        (set3 g.graph x y z { node with prism := none })⟩ : PrismGraph) = g' :=
      congrArg Prod.snd h2
    rw [← hg, ← hv, PrismGraph.totalVolume, PrismGraph.totalVolume]
    show ((Orientation.all.foldl (popStep x y z)
        (set3 g.graph x y z { node with prism := none })).map
          fun a => (a.map fun b => (b.map nodeVol).sum).sum).sum = _
    rw [foldl_popStep_vol, gridVol_set3 _ hn]
    have h3 : nodeVol { node with prism := none } = 0 := rfl
    have h4 : nodeVol node = p.volume := by rw [nodeVol, hp]; rfl
    rw [h3, h4]
    ring

theorem runDeletes_vol {g : PrismGraph} {ds : List (ℕ × ℕ × ℕ)} {s : ℚ} {g' : PrismGraph}
    (h : runDeletes g ds = some (s, g')) :
    g'.totalVolume = g.totalVolume - s := by
  induction ds generalizing g s with
  | nil =>
    have h2 := Option.some.inj h
    have hg : g = g' := congrArg Prod.snd h2
    have hs : (0 : ℚ) = s := congrArg Prod.fst h2
    rw [← hg, ← hs]
    ring
  | cons d ds ih =>
    rw [runDeletes] at h
    rcases hd : g.delete_prism d.1 d.2.1 d.2.2 with _ | r
    · rw [hd] at h; cases h
    rw [hd, Option.some_bind] at h
    rcases hrun : runDeletes r.2 ds with _ | t
    · rw [hrun] at h; cases h
    rw [hrun] at h
    have h2 := Option.some.inj h
    have hg : t.2 = g' := congrArg Prod.snd h2
    have hs : r.1 + t.1 = s := congrArg Prod.fst h2
    have hrun2 : runDeletes r.2 ds = some (t.1, g') := by rw [hrun, ← hg]
    have hd2 : g.delete_prism d.1 d.2.1 d.2.2 = some (r.1, r.2) := by rw [hd]
    rw [ih hrun2, delete_vol hd2, ← hs]
    ring

end RandomCube

namespace RandomCube

/-! ### Triangle geometry: windings and outward normals -/

/-- With nothing suppressed, the 12 emitted triangles, written out: for
each face in source order `LEFT, RIGHT, UP, DOWN, INTO, OUT_OF`, the two
triangles with the corner order chosen by `Rectangle.faces`. -/
theorem triangle_slice_nil (p : Prism) :
    p.triangle_slice [] =
      [(p.vx_000, p.vx_001, p.vx_011), (p.vx_000, p.vx_011, p.vx_010),
       (p.vx_100, p.vx_111, p.vx_101), (p.vx_100, p.vx_110, p.vx_111),
       (p.vx_001, p.vx_111, p.vx_011), (p.vx_001, p.vx_101, p.vx_111),
       (p.vx_000, p.vx_010, p.vx_110), (p.vx_000, p.vx_110, p.vx_100),
       (p.vx_010, p.vx_011, p.vx_111), (p.vx_010, p.vx_111, p.vx_110),
       (p.vx_000, p.vx_101, p.vx_001), (p.vx_000, p.vx_100, p.vx_101)] := rfl

theorem outward_normals {x0 x1 y0 y1 z0 z1 : ℚ} (hx : x0 < x1) (hy : y0 < y1)
    (hz : z0 < z1) :
    ∀ t ∈ (mkPrism x0 x1 y0 y1 z0 z1).triangle_slice [],
      0 < dot (triNormal t) (vsub t.1 (mkPrism x0 x1 y0 y1 z0 z1).centroid) := by
  intro t ht
  have hx' : 0 < x1 - x0 := sub_pos.mpr hx
  have hy' : 0 < y1 - y0 := sub_pos.mpr hy
  have hz' : 0 < z1 - z0 := sub_pos.mpr hz
  rw [triangle_slice_nil] at ht
  simp only [mkPrism, List.mem_cons, List.not_mem_nil, or_false] at ht
  rcases ht with rfl | rfl | rfl | rfl | rfl | rfl | rfl | rfl | rfl | rfl | rfl | rfl <;>
    (simp only [dot, triNormal, cross, vsub, Prism.centroid, mkPrism]
     ring_nf
     nlinarith [mul_pos (mul_pos hx' hy') hz', mul_pos hx' hy', mul_pos hy' hz',
       mul_pos hx' hz'])

end RandomCube

namespace RandomCube

/-! ### Mesh length: suppression by dict values never matches -/

theorem beq_ori_pr (o : Orientation) (p : Prism) :
    (PyObj.ori o == PyObj.pr p) = false := rfl

theorem contains_pr_map (m : List (Orientation × Prism)) (o : Orientation) :
    (m.map fun e => PyObj.pr e.2).contains (PyObj.ori o) = false := by
  induction m with
  | nil => rfl
  | cons e m ih =>
    rw [List.map_cons, List.contains_cons, beq_ori_pr, ih]
    rfl

theorem faces_length (r : Rectangle) : r.faces.length = 2 := by
  rw [Rectangle.faces]
  split <;> rfl

theorem triangle_slice_values_length (p : Prism) (m : List (Orientation × Prism)) :
    (p.triangle_slice (m.map fun e => PyObj.pr e.2)).length = 12 := by
  rw [Prism.triangle_slice]
  have hfil : p.rectangles.filter
      (fun r => !((m.map fun e => PyObj.pr e.2).contains (PyObj.ori r.orientation)))
      = p.rectangles :=
    List.filter_eq_self.mpr fun r _ => by rw [contains_pr_map]; rfl
  rw [hfil, List.length_flatMap]
  simp [Prism.rectangles, faces_length, Function.comp]

theorem flatMap_node_length (b : List PrismGraphNode) :
    (b.flatMap fun node =>
      match node.prism with
      | none => ([] : List Triangle)
      | some p => p.triangle_slice (node.neighbour_map.map fun e => PyObj.pr e.2)).length
      = 12 * b.countP fun n => n.prism.isSome := by
  induction b with
  | nil => rfl
  | cons n b ih =>
    rw [List.flatMap_cons, List.length_append, ih, List.countP_cons]
    rcases hp : n.prism with _ | p
    · simp
    · simp [triangle_slice_values_length]
      omega

theorem flatMap_row_length (a : List (List PrismGraphNode)) :
    (a.flatMap fun n_y => n_y.flatMap fun node =>
      match node.prism with
      | none => ([] : List Triangle)
      | some p => p.triangle_slice (node.neighbour_map.map fun e => PyObj.pr e.2)).length
      = 12 * (a.map fun b => b.countP fun n => n.prism.isSome).sum := by
  induction a with
  | nil => rfl
  | cons b a ih =>
    rw [List.flatMap_cons, List.length_append, ih, flatMap_node_length, List.map_cons,
      List.sum_cons]
    ring

theorem to_mesh_length (g : PrismGraph) : g.to_mesh.length = 12 * g.numPresent := by
  rw [PrismGraph.to_mesh, PrismGraph.numPresent]
  rcases g with ⟨gr⟩
  induction gr with
  | nil => rfl
  | cons a gr ih =>
    rw [List.flatMap_cons, List.length_append, ih, flatMap_row_length, List.map_cons,
      List.sum_cons]
    ring

end RandomCube

namespace RandomCube

/-! ### The claims -/

/-- C1 (code_bug evidence): evaluating `to_mesh` on the failing input, a
1×1×2 grid (two unit prisms sharing one interior face, nothing deleted).
The claim (and the spec) require the two shared-face triangles of each
prism to be suppressed, so 2 × 10 = 20 triangles.  The code emits all
12 triangles per present prism — 24 — because `to_mesh` passes
`neighbour_map.values()` (Prism objects) as the suppression collection,
and `r.orientation not in values` never matches. -/
theorem C1_code_eval :
    (PrismGraph.init [0, 1] [0, 1] [0, 1, 2]).to_mesh.length = 24 ∧
    (PrismGraph.init [0, 1] [0, 1] [0, 1, 2]).numPresent = 2 := by
  constructor
  · rw [to_mesh_length]; rfl
  · rfl

/-- C2 (counterexample): the `INTO` face of the unit prism.  Its rectangle
(the fifth entry of the face enumeration) is emitted with the mirrored
corner order `(ll, tl, tr), (ll, tr, lr)` — not the counterclockwise
order `(ll, tr, tl), (ll, lr, tr)` that the claim asserts for
direction `into`. -/
theorem C2_counterexample :
    (Rectangle.mk ((0:ℚ),(1:ℚ),(0:ℚ)) (0,1,1) (1,1,0) (1,1,1) Orientation.INTO).faces
      = [((0,1,0),(0,1,1),(1,1,1)), ((0,1,0),(1,1,1),(1,1,0))] ∧
    (Rectangle.mk ((0:ℚ),(1:ℚ),(0:ℚ)) (0,1,1) (1,1,0) (1,1,1) Orientation.INTO)
      ∈ (mkPrism 0 1 0 1 0 1).rectangles ∧
    ([((0,1,0),(0,1,1),(1,1,1)), ((0,1,0),(1,1,1),(1,1,0))] : List Triangle)
      ≠ [((0,1,0),(1,1,1),(0,1,1)), ((0,1,0),(1,1,0),(1,1,1))] := by
  refine ⟨rfl, by simp [Prism.rectangles, mkPrism], by norm_num⟩

/-- C2 (amended): for every prism and every non-suppressed face, the two
emitted triangles use the counterclockwise corner order
`(low-low, top-right, top-left), (low-low, low-right, top-right)` exactly
when the face's direction is in `{up, right, out-of}`, and the mirrored
clockwise order `(low-low, top-left, top-right), (low-low, top-right,
low-right)` exactly when it is in `{down, left, into}`; spelling this out
over `triangle_slice` with nothing suppressed gives the 12 triangles in
face order `LEFT, RIGHT, UP, DOWN, INTO, OUT_OF`. -/
theorem C2_winding :
    (∀ r : Rectangle,
      r.faces =
        if r.orientation = .UP ∨ r.orientation = .RIGHT ∨ r.orientation = .OUT_OF
        then [(r.ll, r.tr, r.tl), (r.ll, r.lr, r.tr)]
        else [(r.ll, r.tl, r.tr), (r.ll, r.tr, r.lr)]) ∧
    ∀ p : Prism, p.triangle_slice [] =
      [(p.vx_000, p.vx_001, p.vx_011), (p.vx_000, p.vx_011, p.vx_010),
       (p.vx_100, p.vx_111, p.vx_101), (p.vx_100, p.vx_110, p.vx_111),
       (p.vx_001, p.vx_111, p.vx_011), (p.vx_001, p.vx_101, p.vx_111),
       (p.vx_000, p.vx_010, p.vx_110), (p.vx_000, p.vx_110, p.vx_100),
       (p.vx_010, p.vx_011, p.vx_111), (p.vx_010, p.vx_111, p.vx_110),
       (p.vx_000, p.vx_101, p.vx_001), (p.vx_000, p.vx_100, p.vx_101)] :=
  ⟨fun _ => rfl, triangle_slice_nil⟩

/-- C3: for every valid (non-degenerate axis-aligned) prism, enumerating
its faces with an empty suppression set yields exactly 12 triangles, and
the normal of each triangle (cross product of its edges taken in listed
vertex order) points away from the prism's centroid. -/
theorem C3_outward_normals (p : Prism) (h : p.IsBox) :
    (p.triangle_slice []).length = 12 ∧
    ∀ t ∈ p.triangle_slice [], 0 < dot (triNormal t) (vsub t.1 p.centroid) := by
  obtain ⟨x0, x1, y0, y1, z0, z1, hx, hy, hz, rfl⟩ := h
  exact ⟨by rw [triangle_slice_nil]; rfl, outward_normals hx hy hz⟩

/-- C3 witness: the unit prism is a valid box, its face enumeration has
12 triangles, and the first triangle's normal points away from the
centroid. -/
theorem C3_outward_normals_witness :
    (mkPrism 0 1 0 1 0 1).IsBox ∧
    ((mkPrism 0 1 0 1 0 1).triangle_slice []).length = 12 ∧
    0 < dot (triNormal (((0:ℚ), (0:ℚ), (0:ℚ)), ((0:ℚ), (0:ℚ), (1:ℚ)), ((0:ℚ), (1:ℚ), (1:ℚ))))
      (vsub ((0:ℚ), (0:ℚ), (0:ℚ)) (mkPrism 0 1 0 1 0 1).centroid) := by
  have hbox : (mkPrism 0 1 0 1 0 1).IsBox :=
    ⟨0, 1, 0, 1, 0, 1, by norm_num, by norm_num, by norm_num, rfl⟩
  have h := C3_outward_normals _ hbox
  refine ⟨hbox, h.1, h.2 _ ?_⟩
  rw [triangle_slice_nil]
  simp [mkPrism]

/-- C4 (counterexample): construction performs no validation.  On the
non-strictly-increasing x sequence `[1, 0]` it does not abort: it returns
a graph whose single node is present, holding the degenerate prism built
verbatim from the breakpoints. -/
theorem C4_counterexample :
    ¬ ((1:ℚ) < 0) ∧
    (idx3 (PrismGraph.init [1, 0] [0, 1] [0, 1]).graph 0 0 0).map (fun n => n.prism)
      = some (some (mkPrism 1 0 0 1 0 1)) ∧
    (PrismGraph.init [1, 0] [0, 1] [0, 1]).numPresent = 1 :=
  ⟨by norm_num, rfl, rfl⟩

/-- C4 (amended): construction never raises.  For all input sequences —
strictly increasing or not, shorter than 2 or not — it produces the
rectangular node array of dimensions `(len-1) × (len-1) × (len-1)`. -/
theorem C4_construction_total (xs ys zs : List ℚ) :
    IsRect (PrismGraph.init xs ys zs).graph
      (xs.length - 1) (ys.length - 1) (zs.length - 1) :=
  init_rect xs ys zs

end RandomCube

namespace RandomCube

/-- C5: volume conservation.  For every graph built from valid inputs and
every finite sequence of in-range delete calls, the initial total volume
minus the sum of the returned volumes equals exactly the sum of the
volumes of the prisms still present. -/
theorem C5_volume_conservation (xs ys zs : List ℚ)
    (h1 : ValidAxis xs) (h2 : ValidAxis ys) (h3 : ValidAxis zs)
    (ds : List (ℕ × ℕ × ℕ)) (s : ℚ) (g' : PrismGraph)
    (h : runDeletes (PrismGraph.init xs ys zs) ds = some (s, g')) :
    (PrismGraph.init xs ys zs).totalVolume - s = g'.totalVolume :=
  (runDeletes_vol h).symm

/-- C5 witness: the 1×1×1 unit grid; deleting its only cell returns 1 and
conservation holds. -/
theorem C5_volume_conservation_witness :
    ValidAxis [0, 1] ∧
    runDeletes (PrismGraph.init [0, 1] [0, 1] [0, 1]) [(0, 0, 0)]
      = some (1, ⟨[[[⟨none, []⟩]]]⟩) ∧
    (PrismGraph.init [0, 1] [0, 1] [0, 1]).totalVolume - 1
      = (⟨[[[⟨none, []⟩]]]⟩ : PrismGraph).totalVolume := by
  have hva : ValidAxis [0, 1] := ⟨by norm_num, by norm_num [List.chain'_cons]⟩
  have hrun : runDeletes (PrismGraph.init [0, 1] [0, 1] [0, 1]) [(0, 0, 0)]
      = some (1, ⟨[[[⟨none, []⟩]]]⟩) := by
    rw [show runDeletes (PrismGraph.init [0, 1] [0, 1] [0, 1]) [(0, 0, 0)]
        = some (Prism.volume (mkPrism 0 1 0 1 0 1) + 0, ⟨[[[⟨none, []⟩]]]⟩) from rfl]
    norm_num [Prism.volume, mkPrism]
  exact ⟨hva, hrun,
    C5_volume_conservation [0, 1] [0, 1] [0, 1] hva hva hva [(0, 0, 0)] 1 _ hrun⟩

/-- C6 (counterexample): a 2×1×1 grid.  After deleting node `(1,0,0)`,
node `(0,0,0)` is present with an empty link map (it holds no link in any
direction), and the deleted node `(1,0,0)` keeps its stale entry
`LEFT ↦ prism of (0,0,0)`.  Deleting `(0,0,0)` then removes that entry
from `(1,0,0)`'s map even though `(0,0,0)` held no link toward it — so
deletion changes the map of a neighbour to which the deleted node held no
link, contradicting the claim's frame. -/
theorem C6_counterexample :
    idx3 (delD (PrismGraph.init [0, 1, 2] [0, 1] [0, 1]) 1 0 0).graph 0 0 0
      = some ⟨some (mkPrism 0 1 0 1 0 1), []⟩ ∧
    idx3 (delD (PrismGraph.init [0, 1, 2] [0, 1] [0, 1]) 1 0 0).graph 1 0 0
      = some ⟨none, [(Orientation.LEFT, mkPrism 0 1 0 1 0 1)]⟩ ∧
    idx3 (delD (delD (PrismGraph.init [0, 1, 2] [0, 1] [0, 1]) 1 0 0) 0 0 0).graph 1 0 0
      = some ⟨none, []⟩ :=
  ⟨rfl, rfl, rfl⟩

/-- C6 (amended): deleting an in-range present prism returns its volume
(read before removal), sets exactly that node's prism to absent leaving
its own link map untouched, and pops the entry keyed by `D.reverse()`
from the link map of every geometric neighbour in direction `D` — whether
or not the node still holds a link to it; every node that is neither the
target nor a geometric neighbour is left entirely unchanged (and
neighbours keep their prism). -/
theorem C6_delete_effect (g : PrismGraph) (nx ny nz x y z : ℕ) (node : PrismGraphNode)
    (p : Prism) (hr : IsRect g.graph nx ny nz) (hn : idx3 g.graph x y z = some node)
    (hp : node.prism = some p) :
    ∃ g' : PrismGraph,
      g.delete_prism x y z = some (p.volume, g') ∧
      idx3 g'.graph x y z = some { node with prism := none } ∧
      (∀ o : Orientation, activeB o nx ny nz x y z = true →
        ∀ nb : PrismGraphNode,
          idx3 g.graph (o.nbr_index x y z).1 (o.nbr_index x y z).2.1
            (o.nbr_index x y z).2.2 = some nb →
          idx3 g'.graph (o.nbr_index x y z).1 (o.nbr_index x y z).2.1
            (o.nbr_index x y z).2.2
            = some { nb with neighbour_map := popKey nb.neighbour_map o.reverse }) ∧
      (∀ i j k : ℕ, (x, y, z) ≠ (i, j, k) →
        (∀ o : Orientation, activeB o nx ny nz x y z = true →
          o.nbr_index x y z ≠ (i, j, k)) →
        idx3 g'.graph i j k = idx3 g.graph i j k) := by
  refine ⟨_, delete_prism_eq hn hp, delete_idx3_target hr hn hp, ?_, ?_⟩
  · intro o ha nb hnb
    exact delete_idx3_nbr hr hn hp ha hnb
  · intro i j k hne hno
    exact delete_idx3_other hr hn hp hne hno

/-- C6 witness: the 2×1×1 grid; deleting `(0,0,0)` returns its volume,
clears its prism keeping its own map, and pops `LEFT` from the map of its
geometric neighbour `(1,0,0)` whose prism stays present. -/
theorem C6_delete_effect_witness :
    (PrismGraph.init [0, 1, 2] [0, 1] [0, 1]).delete_prism 0 0 0
      = some (Prism.volume (mkPrism 0 1 0 1 0 1),
          delD (PrismGraph.init [0, 1, 2] [0, 1] [0, 1]) 0 0 0) ∧
    idx3 (delD (PrismGraph.init [0, 1, 2] [0, 1] [0, 1]) 0 0 0).graph 0 0 0
      = some ⟨none, [(Orientation.RIGHT, mkPrism 1 2 0 1 0 1)]⟩ ∧
    idx3 (delD (PrismGraph.init [0, 1, 2] [0, 1] [0, 1]) 0 0 0).graph 1 0 0
      = some ⟨some (mkPrism 1 2 0 1 0 1), []⟩ := by
  obtain ⟨g', hdel, htarget, hnbr, hother⟩ :=
    C6_delete_effect (PrismGraph.init [0, 1, 2] [0, 1] [0, 1]) 2 1 1 0 0 0
      ⟨some (mkPrism 0 1 0 1 0 1), [(Orientation.RIGHT, mkPrism 1 2 0 1 0 1)]⟩
      (mkPrism 0 1 0 1 0 1)
      (init_rect [0, 1, 2] [0, 1] [0, 1]) rfl rfl
  have hg : delD (PrismGraph.init [0, 1, 2] [0, 1] [0, 1]) 0 0 0 = g' := by
    rw [delD, hdel]
    rfl
  refine ⟨by rw [hg]; exact hdel, by rw [hg]; exact htarget, ?_⟩
  rw [hg]
  exact hnbr Orientation.RIGHT rfl
    ⟨some (mkPrism 1 2 0 1 0 1), [(Orientation.LEFT, mkPrism 0 1 0 1 0 1)]⟩ rfl

/-- C7: directional link consistency in every reachable state.  If B is
the geometric neighbour of A in direction D and both prisms are present,
A's map has an entry for D (holding B's prism) and B's map has an entry
for D.reverse() holding A's prism; and once a node's prism is absent, no
node's map holds an entry pointing toward it. -/
theorem C7_link_consistency (g : PrismGraph) (hg : Reachable g) :
    (∀ (x y z : ℕ) (nodeA : PrismGraphNode) (D : Orientation) (nodeB : PrismGraphNode)
      (pA pB : Prism),
      idx3 g.graph x y z = some nodeA →
      D.get_neighbour g.graph x y z = some nodeB →
      nodeA.prism = some pA → nodeB.prism = some pB →
      nodeA.neighbour_map.lookup D = some pB ∧
        nodeB.neighbour_map.lookup D.reverse = some pA) ∧
    (∀ (x y z : ℕ) (nodeC : PrismGraphNode) (E : Orientation) (nodeB : PrismGraphNode),
      idx3 g.graph x y z = some nodeC → nodeC.prism.isSome = true →
      E.get_neighbour g.graph x y z = some nodeB → nodeB.prism = none →
      nodeC.neighbour_map.lookup E = none) := by
  obtain ⟨⟨nx, ny, nz, hr⟩, hinv⟩ := reachable_inv hg
  constructor
  · intro x y z nodeA D nodeB pA pB hA hB hpA hpB
    obtain ⟨hx, hy, hz⟩ := bounds_of_idx3 hr hA
    constructor
    · rw [inv_lookup hinv hA D, nbEntry, hB, Option.some_bind, hpB]
      rfl
    · have hBidx := get_neighbour_imp_idx3 hB
      have haD : activeB D nx ny nz x y z = true := get_neighbour_active hr hx hy hz hB
      obtain ⟨bi, bj, bk⟩ := nbr_bounds haD hx hy hz
      obtain ⟨hs1, hs2⟩ := nbr_symm (i := (D.nbr_index x y z).1)
        (j := (D.nbr_index x y z).2.1) (k := (D.nbr_index x y z).2.2) haD rfl hx hy hz
      rw [inv_lookup hinv hBidx D.reverse, nbEntry,
        get_neighbour_char D.reverse hr bi bj bk, if_pos hs1]
      have hc1 : (D.reverse.nbr_index (D.nbr_index x y z).1 (D.nbr_index x y z).2.1
          (D.nbr_index x y z).2.2).1 = x := by rw [hs2]
      have hc2 : (D.reverse.nbr_index (D.nbr_index x y z).1 (D.nbr_index x y z).2.1
          (D.nbr_index x y z).2.2).2.1 = y := by rw [hs2]
      have hc3 : (D.reverse.nbr_index (D.nbr_index x y z).1 (D.nbr_index x y z).2.1
          (D.nbr_index x y z).2.2).2.2 = z := by rw [hs2]
      rw [hc1, hc2, hc3, hA, Option.some_bind, hpA]
      rfl
  · intro x y z nodeC E nodeB hC hpres hB hpB
    rw [inv_lookup hinv hC E, nbEntry, hB, Option.some_bind, hpB]
    rfl

/-- C7 witness: the freshly built 2×1×1 grid is reachable (empty deletion
sequence); its two nodes are mutually linked, `RIGHT` from `(0,0,0)` and
`LEFT` back from `(1,0,0)`, each holding the other's prism. -/
theorem C7_link_consistency_witness :
    Reachable (PrismGraph.init [0, 1, 2] [0, 1] [0, 1]) ∧
    ((⟨some (mkPrism 0 1 0 1 0 1),
        [(Orientation.RIGHT, mkPrism 1 2 0 1 0 1)]⟩ : PrismGraphNode).neighbour_map.lookup
      Orientation.RIGHT = some (mkPrism 1 2 0 1 0 1)) ∧
    ((⟨some (mkPrism 1 2 0 1 0 1),
        [(Orientation.LEFT, mkPrism 0 1 0 1 0 1)]⟩ : PrismGraphNode).neighbour_map.lookup
      Orientation.LEFT = some (mkPrism 0 1 0 1 0 1)) := by
  have hreach : Reachable (PrismGraph.init [0, 1, 2] [0, 1] [0, 1]) :=
    ⟨[0, 1, 2], [0, 1], [0, 1], [], 0, rfl⟩
  have h := (C7_link_consistency _ hreach).1 0 0 0
    ⟨some (mkPrism 0 1 0 1 0 1), [(Orientation.RIGHT, mkPrism 1 2 0 1 0 1)]⟩
    Orientation.RIGHT
    ⟨some (mkPrism 1 2 0 1 0 1), [(Orientation.LEFT, mkPrism 0 1 0 1 0 1)]⟩
    (mkPrism 0 1 0 1 0 1) (mkPrism 1 2 0 1 0 1) rfl rfl rfl rfl
  exact ⟨hreach, h.1, h.2⟩

end RandomCube

namespace RandomCube

/-- C8: deleting an in-range node whose prism is already absent returns 0
and changes nothing; repeating the call (here: running the same deletion
twice) again returns 0 in total and leaves the graph exactly as it was. -/
theorem C8_absent_delete (g : PrismGraph) (x y z : ℕ) (node : PrismGraphNode)
    (hn : idx3 g.graph x y z = some node) (hp : node.prism = none) :
    g.delete_prism x y z = some (0, g) ∧
    runDeletes g [(x, y, z), (x, y, z)] = some (0, g) := by
  have h1 := delete_prism_absent hn hp
  refine ⟨h1, ?_⟩
  simp only [runDeletes, h1, Option.some_bind, Option.map_some']
  norm_num

/-- C8 witness: a 1×1×1 graph whose only node is already absent. -/
theorem C8_absent_delete_witness :
    (⟨[[[⟨none, []⟩]]]⟩ : PrismGraph).delete_prism 0 0 0
      = some (0, ⟨[[[⟨none, []⟩]]]⟩) ∧
    runDeletes (⟨[[[⟨none, []⟩]]]⟩ : PrismGraph) [(0, 0, 0), (0, 0, 0)]
      = some (0, ⟨[[[⟨none, []⟩]]]⟩) :=
  C8_absent_delete _ 0 0 0 ⟨none, []⟩ rfl rfl

/-- C9: construction from valid inputs produces the
`(Nx-1)×(Ny-1)×(Nz-1)` node array; the prism at `(x,y,z)` takes its 8
corners verbatim from the breakpoints (`mkPrism` of the two consecutive
breakpoints on each axis), and a node's link map has an entry for a
direction exactly when a geometric neighbour exists there (`activeB`),
links being absent only at the grid boundary. -/
theorem C9_construction (xs ys zs : List ℚ)
    (h1 : ValidAxis xs) (h2 : ValidAxis ys) (h3 : ValidAxis zs) :
    IsRect (PrismGraph.init xs ys zs).graph
      (xs.length - 1) (ys.length - 1) (zs.length - 1) ∧
    ∀ x y z : ℕ, x < xs.length - 1 → y < ys.length - 1 → z < zs.length - 1 →
      ∃ node : PrismGraphNode,
        idx3 (PrismGraph.init xs ys zs).graph x y z = some node ∧
        node.prism = some (mkPrism (xs.getD x 0) (xs.getD (x + 1) 0) (ys.getD y 0)
          (ys.getD (y + 1) 0) (zs.getD z 0) (zs.getD (z + 1) 0)) ∧
        ∀ o : Orientation, (node.neighbour_map.lookup o).isSome
          = activeB o (xs.length - 1) (ys.length - 1) (zs.length - 1) x y z := by
  refine ⟨init_rect xs ys zs, ?_⟩
  intro x y z hx hy hz
  refine ⟨_, idx3_init hx hy hz, idx3_prism_grid hx hy hz, ?_⟩
  intro o
  show (List.lookup o (initMap xs ys zs x y z)).isSome = _
  have hf : ∀ (o' : Orientation) (e : Orientation × Prism),
      ((Orientation.get_neighbour o' (prism_grid xs ys zs) x y z).map
        fun p => (o', p)) = some e → e.1 = o' := by
    intro o' e he
    rcases hgn : Orientation.get_neighbour o' (prism_grid xs ys zs) x y z with _ | q
    · rw [hgn] at he; cases he
    · rw [hgn, Option.map_some'] at he
      cases he
      rfl
  rw [initMap, lookup_filterMap hf (mem_all o) all_nodup,
    get_neighbour_char o (prism_grid_rect xs ys zs) hx hy hz]
  rcases ha : activeB o (xs.length - 1) (ys.length - 1) (zs.length - 1) x y z with _ | _
  · rfl
  · obtain ⟨b1, b2, b3⟩ := nbr_bounds ha hx hy hz
    obtain ⟨q, hq⟩ := idx3_isSome (prism_grid_rect xs ys zs) b1 b2 b3
    rw [hq]
    rfl

/-- C9 witness: the 1×1×2 grid.  Its node `(0,0,0)` holds the unit prism
built verbatim from the breakpoints and links only in direction `INTO`
(the sole direction with a geometric neighbour). -/
theorem C9_construction_witness :
    ValidAxis [0, 1, 2] ∧
    idx3 (PrismGraph.init [0, 1] [0, 1] [0, 1, 2]).graph 0 0 0
      = some ⟨some (mkPrism 0 1 0 1 0 1), [(Orientation.INTO, mkPrism 0 1 0 1 1 2)]⟩ ∧
    ((⟨some (mkPrism 0 1 0 1 0 1),
        [(Orientation.INTO, mkPrism 0 1 0 1 1 2)]⟩ : PrismGraphNode).neighbour_map.lookup
      Orientation.INTO).isSome = true ∧
    ((⟨some (mkPrism 0 1 0 1 0 1),
        [(Orientation.INTO, mkPrism 0 1 0 1 1 2)]⟩ : PrismGraphNode).neighbour_map.lookup
      Orientation.UP).isSome = false := by
  have hva2 : ValidAxis [0, 1] := ⟨by norm_num, by norm_num [List.chain'_cons]⟩
  have hva3 : ValidAxis [0, 1, 2] := ⟨by norm_num, by norm_num [List.chain'_cons]⟩
  obtain ⟨hrect, hnodes⟩ := C9_construction [0, 1] [0, 1] [0, 1, 2] hva2 hva2 hva3
  obtain ⟨node, hnode, hprism, hlook⟩ := hnodes 0 0 0 (by decide) (by decide) (by decide)
  have he : node = ⟨some (mkPrism 0 1 0 1 0 1),
      [(Orientation.INTO, mkPrism 0 1 0 1 1 2)]⟩ :=
    Option.some.inj (hnode.symm.trans rfl)
  refine ⟨hva3, ?_, ?_, ?_⟩
  · rw [← he]; exact hnode
  · rw [← he]; exact hlook Orientation.INTO
  · rw [← he]; exact hlook Orientation.UP

/-- C10 (implicit behaviour): in every graph state, `to_mesh` emits
exactly 12 triangles for every node whose prism is present, regardless of
the node's link map — the suppression collection holds `Prism` values
(the link map's values), so the membership test against an `Orientation`
never matches.  Hence the output length is always `12 × numPresent`.
(Stated for all graph values, which covers every reachable state.) -/
theorem C10_twelve_per_present_prism (g : PrismGraph) :
    g.to_mesh.length = 12 * g.numPresent :=
  to_mesh_length g

end RandomCube
